import Mathlib

/-!
Verification of the KaraokeKunKari pitch-timeline quantization and scoring
engine.  The definitions below are a shallow embedding of
`src/core/pitchArrayBuilder.ts` and the frame scorer (`evaluateFrame`,
`ScoreTracker`): JavaScript numbers are modelled as rationals, `null` as
`Option.none`, and the mutable `ScoreTracker` instance as an explicit
state value threaded through the operations.
-/

namespace Karaoke

/-- Frame classification tag (the `match` field of a `ScoreFrame`). -/
inductive MatchKind
  | PERFECT
  | ACCEPTABLE
  | MISS
  | NO_DATA
deriving DecidableEq

/-- Polyphony resolution strategy (`'FIRST' | 'VELOCITY' | 'FREQUENCY'`). -/
inductive PolyphonyStrategy
  | FIRST
  | VELOCITY
  | FREQUENCY
deriving DecidableEq

/-- A MIDI note event (`NoteEvent` in `types.ts`). -/
structure NoteEvent where
  time : ℚ
  duration : ℚ
  midi : ℤ
  velocity : ℚ
deriving DecidableEq

/-- Time-resolution based expected pitch array (`ExpectedPitchArray`):
`pitches` holds a MIDI note number or `null` per slot. -/
structure ExpectedPitchArray where
  start : ℚ
  step : ℚ
  pitches : List (Option ℤ)
deriving DecidableEq

/-- Detected pitch information from the microphone (`DetectedPitch`).
The detected MIDI value may be fractional. -/
structure DetectedPitch where
  midi : Option ℚ
  frequency : ℚ
  clarity : ℚ
  timestamp : ℚ
deriving DecidableEq

/-- A single evaluated score frame (`ScoreFrame`); the source field
`match` is renamed `matchKind` because `match` is reserved in Lean. -/
structure ScoreFrame where
  time : ℚ
  expected : Option ℤ
  detected : Option ℚ
  diff : Option ℚ
  matchKind : MatchKind
deriving DecidableEq

/-- Scoring configuration (`ScoringConfig`). -/
structure ScoringConfig where
  perfectThreshold : ℚ
  acceptableThreshold : ℚ
  clarityThreshold : ℚ
deriving DecidableEq

/-- `DEFAULT_SCORING_CONFIG` from `scoring.ts`. -/
def defaultScoringConfig : ScoringConfig :=
  ⟨1/2, 1, 17/20⟩

/-- Overall score statistics (`ScoreStats`). -/
structure ScoreStats where
  totalFrames : ℕ
  perfectFrames : ℕ
  acceptableFrames : ℕ
  missFrames : ℕ
  noDataFrames : ℕ
  score : ℚ
  matchedTime : ℚ
  totalTime : ℚ
deriving DecidableEq

/-- Note candidate for a time slot (`NoteCandidate`). -/
structure NoteCandidate where
  midi : ℤ
  velocity : ℚ
  time : ℚ
deriving DecidableEq

/-! ### Timeline builder (`pitchArrayBuilder.ts`) -/

/-- `Math.min(...notes.map(n => n.time))` for the non-empty list `n :: ns`. -/
def minTime (n : NoteEvent) (ns : List NoteEvent) : ℚ :=
  ns.foldl (fun a m => min a m.time) n.time

/-- `Math.max(...notes.map(n => n.time + n.duration))` for `n :: ns`. -/
def maxEnd (n : NoteEvent) (ns : List NoteEvent) : ℚ :=
  ns.foldl (fun a m => max a (m.time + m.duration)) (n.time + n.duration)

/-- `len = Math.ceil((end - start) / resolution)`.  (For inputs where the
JavaScript value would be negative the source throws on array allocation;
`Int.toNat` clamps instead — every claim below stays inside the
nonnegative domain.) -/
def arrLen (n : NoteEvent) (ns : List NoteEvent) (res : ℚ) : ℕ :=
  (⌈(maxEnd n ns - minTime n ns) / res⌉).toNat

/-- Lower slot index of a note: `Math.max(0, Math.floor((note.time - start) / resolution))`. -/
def slotLo (start res : ℚ) (m : NoteEvent) : ℤ :=
  max 0 ⌊(m.time - start) / res⌋

/-- Upper slot bound of a note:
`Math.min(len, Math.ceil((note.time + note.duration - start) / resolution))`. -/
def slotHi (start res : ℚ) (len : ℕ) (m : NoteEvent) : ℤ :=
  min (len : ℤ) ⌈(m.time + m.duration - start) / res⌉

/-- Slot-occupancy predicate: the population loop pushes note `m` into
slot `i` exactly when `slotLo ≤ i < slotHi`. -/
def inSlotRange (start res : ℚ) (len : ℕ) (m : NoteEvent) (i : ℤ) : Prop :=
  slotLo start res m ≤ i ∧ i < slotHi start res len m

instance (start res : ℚ) (len : ℕ) (m : NoteEvent) (i : ℤ) :
    Decidable (inSlotRange start res len m i) := by
  unfold inSlotRange; infer_instance

/-- Two notes occupy no common slot. -/
def slotDisjoint (start res : ℚ) (len : ℕ) (a b : NoteEvent) : Prop :=
  ∀ i : ℤ, ¬(inSlotRange start res len a i ∧ inSlotRange start res len b i)

/-- The candidate list of slot `i`: the population loop iterates the notes
in input order and pushes each note into every slot of its range, so the
per-slot list is the input list filtered by slot membership. -/
def candidatesAt (notes : List NoteEvent) (start res : ℚ) (len : ℕ) (i : ℤ) :
    List NoteCandidate :=
  (notes.filter (fun m => decide (inSlotRange start res len m i))).map
    (fun m => ⟨m.midi, m.velocity, m.time⟩)

/-- `candidates.reduce((sum, c) => sum + c.velocity, 0)`. -/
def totalWeight (cands : List NoteCandidate) : ℚ :=
  cands.foldl (fun s c => s + c.velocity) 0

/-- `candidates.reduce((sum, c) => sum + c.midi * c.velocity, 0)`. -/
def weightedSum (cands : List NoteCandidate) : ℚ :=
  cands.foldl (fun s c => s + (c.midi : ℚ) * c.velocity) 0

/-- `Math.round` (rounds half toward positive infinity). -/
def jsRound (q : ℚ) : ℤ := ⌊q + 1/2⌋

/-- `resolvePitch` from `pitchArrayBuilder.ts`.  The result is an
`Option`: `none` models the `NaN` produced by the `FREQUENCY` branch when
`totalWeight` is `0` (JavaScript `0/0`); every other reachable path
produces an actual MIDI number.  (An empty candidate list, on which the
source `reduce` would throw, also maps to `none`; the builder never calls
it on an empty list.) -/
def resolvePitch (cands : List NoteCandidate) (strategy : PolyphonyStrategy) :
    Option ℤ :=
  match cands with
  | [] => none
  | [c] => some c.midi
  | c :: rest =>
    match strategy with
    | .FIRST =>
      some ((rest.foldl (fun earliest current =>
        if current.time < earliest.time then current else earliest) c).midi)
    | .VELOCITY =>
      some ((rest.foldl (fun loudest current =>
        if current.velocity > loudest.velocity then current else loudest) c).midi)
    | .FREQUENCY =>
      let tw := totalWeight (c :: rest)
      let ws := weightedSum (c :: rest)
      if tw = 0 then none else some (jsRound (ws / tw))

/-- The value stored in one slot of the final array: absent when no
candidate covers the slot, otherwise the strategy resolution. -/
def slotValue (notes : List NoteEvent) (start res : ℚ) (len : ℕ)
    (strategy : PolyphonyStrategy) (i : ℤ) : Option ℤ :=
  if (candidatesAt notes start res len i).isEmpty then none
  else resolvePitch (candidatesAt notes start res len i) strategy

/-- `buildExpectedPitchArray` from `pitchArrayBuilder.ts` with the
defaults already applied (`resolution = res`, `strategy`). -/
def buildExpectedPitchArray (notes : List NoteEvent) (res : ℚ)
    (strategy : PolyphonyStrategy) : ExpectedPitchArray :=
  match notes with
  | [] => ⟨0, res, []⟩
  | n :: ns =>
    ⟨minTime n ns, res,
      (List.range (arrLen n ns res)).map
        (fun i : ℕ => slotValue (n :: ns) (minTime n ns) res (arrLen n ns res)
          strategy (Int.ofNat i))⟩

/-- `getExpectedMidiAt` from `pitchArrayBuilder.ts` (the local binding
`const idx = Math.floor((time - start) / step)` is inlined). -/
def getExpectedMidiAt (time : ℚ) (expected : ExpectedPitchArray) : Option ℤ :=
  if time < expected.start then none
  else if ⌊(time - expected.start) / expected.step⌋ < 0
      ∨ (expected.pitches.length : ℤ)
        ≤ ⌊(time - expected.start) / expected.step⌋ then none
  else expected.pitches.getD (⌊(time - expected.start) / expected.step⌋).toNat
    none

/-- Run-length encoded pitch array (result type of `compressPitchArray`). -/
structure CompressedPitchArray where
  start : ℚ
  step : ℚ
  compressed : List (Option ℤ × ℕ)
deriving DecidableEq

/-- The compression loop of `compressPitchArray`: `v` is `currentValue`,
`count` the running run length, and the list argument the remaining
elements. -/
def compressRuns (v : Option ℤ) (count : ℕ) :
    List (Option ℤ) → List (Option ℤ × ℕ)
  | [] => [(v, count)]
  | x :: xs =>
    if x = v then compressRuns v (count + 1) xs
    else (v, count) :: compressRuns x 1 xs

/-- `compressPitchArray` from `pitchArrayBuilder.ts` (an empty `pitches`
list produces an empty run list: the final push is guarded by
`pitches.length > 0`). -/
def compressPitchArray (expected : ExpectedPitchArray) : CompressedPitchArray :=
  ⟨expected.start, expected.step,
    match expected.pitches with
    | [] => []
    | p :: ps => compressRuns p 1 ps⟩

/-- `decompressPitchArray` from `pitchArrayBuilder.ts`. -/
def decompressPitchArray (compressed : CompressedPitchArray) :
    ExpectedPitchArray :=
  ⟨compressed.start, compressed.step,
    (compressed.compressed.map (fun run => List.replicate run.2 run.1)).flatten⟩

/-! ### Frame scorer (`scoring.ts`) -/

/-- `evaluateFrame` from `scoring.ts` with the configuration defaults
already merged into `cfg`. -/
def evaluateFrame (detected : Option DetectedPitch) (expected : Option ℤ)
    (cfg : ScoringConfig) : ScoreFrame :=
  let time := match detected with
    | some d => d.timestamp
    | none => 0
  match expected with
  | none =>
    ⟨time, none, (match detected with | some d => d.midi | none => none),
      none, .NO_DATA⟩
  | some e =>
    match detected with
    | none => ⟨time, some e, none, none, .NO_DATA⟩
    | some d =>
      match d.midi with
      | none => ⟨time, some e, none, none, .NO_DATA⟩
      | some p =>
        if d.clarity < cfg.clarityThreshold then
          ⟨time, some e, some p, none, .NO_DATA⟩
        else
          ⟨time, some e, some p, some |p - (e : ℚ)|,
            if |p - (e : ℚ)| ≤ cfg.perfectThreshold then .PERFECT
            else if |p - (e : ℚ)| ≤ cfg.acceptableThreshold then .ACCEPTABLE
            else .MISS⟩

/-- The mutable state of a `ScoreTracker` instance. -/
structure TrackerState where
  frames : List ScoreFrame
  config : ScoringConfig
deriving DecidableEq

/-- `ScoreTracker.addFrame`: looks up the expected pitch, evaluates the
frame, appends it to the history, and returns it. -/
def addFrame (s : TrackerState) (detected : Option DetectedPitch)
    (expected : ExpectedPitchArray) (currentTime : ℚ) :
    TrackerState × ScoreFrame :=
  let expectedMidi := getExpectedMidiAt currentTime expected
  let frame := evaluateFrame detected expectedMidi s.config
  (⟨s.frames ++ [frame], s.config⟩, frame)

/-- Repeated `addFrame` calls (used to state the seek-replay property). -/
def addFrames (s : TrackerState)
    (inputs : List (Option DetectedPitch × ExpectedPitchArray × ℚ)) :
    TrackerState :=
  inputs.foldl (fun st inp => (addFrame st inp.1 inp.2.1 inp.2.2).1) s

/-- Number of history frames carrying classification `k` (the counting
loop of `ScoreTracker.getStats`). -/
def countKind (k : MatchKind) (frames : List ScoreFrame) : ℕ :=
  frames.countP (fun f => decide (f.matchKind = k))

/-- `scoredFrames = perfect + acceptable + miss` in `getStats`. -/
def scoredCount (frames : List ScoreFrame) : ℕ :=
  countKind .PERFECT frames + countKind .ACCEPTABLE frames
    + countKind .MISS frames

/-- `matchedFrames = perfect + acceptable` in `getStats`. -/
def matchedCount (frames : List ScoreFrame) : ℕ :=
  countKind .PERFECT frames + countKind .ACCEPTABLE frames

/-- `Math.round(x * 100) / 100` — round to two decimal places. -/
def round2 (q : ℚ) : ℚ := (jsRound (q * 100) : ℚ) / 100

/-- `ScoreTracker.getStats`. -/
def getStats (s : TrackerState) : ScoreStats :=
  let perfectFrames := countKind .PERFECT s.frames
  let acceptableFrames := countKind .ACCEPTABLE s.frames
  let missFrames := countKind .MISS s.frames
  let noDataFrames := countKind .NO_DATA s.frames
  let totalFrames := s.frames.length
  let scoredFrames := perfectFrames + acceptableFrames + missFrames
  let matchedFrames := perfectFrames + acceptableFrames
  let score : ℚ :=
    if 0 < scoredFrames then (matchedFrames : ℚ) / (scoredFrames : ℚ) * 100
    else 0
  let frameStep : ℚ :=
    if 1 < s.frames.length then
      (((s.frames.getLast?.map ScoreFrame.time).getD 0)
        - ((s.frames.head?.map ScoreFrame.time).getD 0))
        / ((s.frames.length : ℚ) - 1)
    else 1/50
  ⟨totalFrames, perfectFrames, acceptableFrames, missFrames, noDataFrames,
    round2 score, (matchedFrames : ℚ) * frameStep,
    (scoredFrames : ℚ) * frameStep⟩

/-- `ScoreTracker.resetFrom`: keep only the frames strictly before the
cutoff time. -/
def resetFrom (time : ℚ) (s : TrackerState) : TrackerState :=
  ⟨s.frames.filter (fun f => decide (f.time < time)), s.config⟩

/-- A `Partial<ScoringConfig>`: each threshold may be absent. -/
structure OptionalScoringConfig where
  perfectThreshold : Option ℚ
  acceptableThreshold : Option ℚ
  clarityThreshold : Option ℚ
deriving DecidableEq

/-- `{ ...DEFAULT_SCORING_CONFIG, ...config }`. -/
def mergeConfig (config : OptionalScoringConfig) : ScoringConfig :=
  ⟨config.perfectThreshold.getD defaultScoringConfig.perfectThreshold,
    config.acceptableThreshold.getD defaultScoringConfig.acceptableThreshold,
    config.clarityThreshold.getD defaultScoringConfig.clarityThreshold⟩

/-- Argument of `ScoreTracker.import`: `frames` is required by the type,
`config` is optional. -/
structure ImportData where
  frames : List ScoreFrame
  config : Option OptionalScoringConfig
deriving DecidableEq

/-- `ScoreTracker.import`: overwrite the frame history; merge the
configuration over the defaults only when one is supplied. -/
def scoreImport (data : ImportData) (s : TrackerState) : TrackerState :=
  ⟨data.frames,
    match data.config with
    | some c => mergeConfig c
    | none => s.config⟩

/-- Modelled from the spec: the frame-classification decision tree of
§4.2 (`addFrame` step 2), used to compare the source `evaluateFrame`
against the specified tree. -/
def classifySpec (detected : Option DetectedPitch) (expected : Option ℤ)
    (cfg : ScoringConfig) : MatchKind :=
  match expected with
  | none => .NO_DATA
  | some e =>
    match detected with
    | none => .NO_DATA
    | some d =>
      match d.midi with
      | none => .NO_DATA
      | some p =>
        if d.clarity < cfg.clarityThreshold then .NO_DATA
        else if |p - (e : ℚ)| ≤ cfg.perfectThreshold then .PERFECT
        else if |p - (e : ℚ)| ≤ cfg.acceptableThreshold then .ACCEPTABLE
        else .MISS

/-! ### Helper lemmas -/

/-- Decompressing the run list produced by the compression loop restores
the pending run followed by the remaining input. -/
lemma flatten_compressRuns (xs : List (Option ℤ)) : ∀ (v : Option ℤ) (c : ℕ),
    ((compressRuns v c xs).map (fun run => List.replicate run.2 run.1)).flatten
      = List.replicate c v ++ xs := by
  induction xs with
  | nil => intro v c; simp [compressRuns]
  | cons x xs ih =>
    intro v c
    by_cases h : x = v
    · subst h
      rw [compressRuns, if_pos rfl, ih, List.replicate_succ']
      simp
    · rw [compressRuns, if_neg h]
      simp [ih]

/-- Evaluating a frame never reads the tracker state: the produced
frame's `time` is `detected?.timestamp ?? 0`. -/
lemma evaluateFrame_time (detected : Option DetectedPitch) (e : Option ℤ)
    (cfg : ScoringConfig) :
    (evaluateFrame detected e cfg).time
      = (match detected with | some d => d.timestamp | none => 0) := by
  cases detected with
  | none => cases e <;> rfl
  | some d =>
    cases e with
    | none => rfl
    | some v =>
      cases h : d.midi with
      | none => simp [evaluateFrame, h]
      | some p =>
        simp only [evaluateFrame, h]
        split_ifs <;> rfl

/-- The frame classification computed by `evaluateFrame` agrees with the
specified decision tree. -/
lemma evaluateFrame_matchKind (detected : Option DetectedPitch) (e : Option ℤ)
    (cfg : ScoringConfig) :
    (evaluateFrame detected e cfg).matchKind = classifySpec detected e cfg := by
  cases detected with
  | none => cases e <;> rfl
  | some d =>
    cases e with
    | none => rfl
    | some v =>
      cases h : d.midi with
      | none => simp [evaluateFrame, classifySpec, h]
      | some p =>
        simp only [evaluateFrame, classifySpec, h]
        split_ifs <;> rfl

/-! ### Claims -/

/-- C1 counterexample: with an empty note list and resolution `-1`,
`buildExpectedPitchArray` silently returns an array whose `step` is the
non-positive resolution; no `InvalidConfig` condition exists anywhere in
the code, refuting the claim that every non-positive resolution is
rejected at construction. -/
theorem build_negative_resolution_returns_array :
    buildExpectedPitchArray [] (-1) .VELOCITY
      = ({ start := 0, step := -1, pitches := [] } : ExpectedPitchArray)
    ∧ (-1 : ℚ) ≤ 0 := by
  constructor
  · with_unfolding_all decide
  · norm_num

/-- C1 amended: `buildExpectedPitchArray` performs no resolution
validation and signals no condition: for an empty note list it returns
the empty array carrying the given resolution as `step` — even when that
resolution is non-positive — and for every positive resolution it
returns an array whose `step` is the resolution unchanged. -/
theorem build_does_not_validate_resolution (notes : List NoteEvent) (res : ℚ)
    (strategy : PolyphonyStrategy) :
    (notes = [] →
      buildExpectedPitchArray notes res strategy
        = ({ start := 0, step := res, pitches := [] } : ExpectedPitchArray))
    ∧ (0 < res → (buildExpectedPitchArray notes res strategy).step = res) := by
  constructor
  · rintro rfl; rfl
  · intro _; cases notes <;> rfl

/-- C1 witness: the amended theorem evaluated at the empty note list and
resolution `-1`. -/
theorem build_does_not_validate_resolution_witness :
    buildExpectedPitchArray [] (-1) .FIRST
      = ({ start := 0, step := -1, pitches := [] } : ExpectedPitchArray) :=
  (build_does_not_validate_resolution [] (-1) .FIRST).1 rfl

/-- C2 counterexample: with two candidates of velocity `0`, the
`FREQUENCY` branch computes `0/0` (JavaScript `NaN`, modelled as `none`)
instead of the claimed arithmetic mean `62` of the pitches `60` and
`64`. -/
theorem frequency_zero_velocity_not_mean :
    resolvePitch [⟨60, 0, 0⟩, ⟨64, 0, 0⟩] .FREQUENCY = none
    ∧ resolvePitch [⟨60, 0, 0⟩, ⟨64, 0, 0⟩] .FREQUENCY ≠ some 62 := by
  with_unfolding_all decide

/-- Folding the velocity accumulator equals the accumulator plus the sum
of the velocities. -/
lemma foldl_velocity_eq (cands : List NoteCandidate) : ∀ (a : ℚ),
    cands.foldl (fun s c => s + c.velocity) a
      = a + (cands.map NoteCandidate.velocity).sum := by
  induction cands with
  | nil => intro a; simp
  | cons c cs ih => intro a; simp [ih, add_assoc]

/-- C2 amended: for two or more candidates, `FREQUENCY` resolution with
all velocities zero returns the `NaN` of `0/0` (modelled as absence),
not the arithmetic mean; with nonnegative velocities at least one of
which is positive it returns the velocity-weighted mean of the pitches
rounded half-up to the nearest integer. -/
theorem frequency_weighted_mean (c₁ c₂ : NoteCandidate)
    (rest : List NoteCandidate) :
    ((∀ x ∈ c₁ :: c₂ :: rest, x.velocity = 0) →
      resolvePitch (c₁ :: c₂ :: rest) .FREQUENCY = none)
    ∧ ((∀ x ∈ c₁ :: c₂ :: rest, 0 ≤ x.velocity) →
        (∃ x ∈ c₁ :: c₂ :: rest, 0 < x.velocity) →
      resolvePitch (c₁ :: c₂ :: rest) .FREQUENCY
        = some (jsRound (weightedSum (c₁ :: c₂ :: rest)
            / totalWeight (c₁ :: c₂ :: rest)))) := by
  have hsum : totalWeight (c₁ :: c₂ :: rest)
      = ((c₁ :: c₂ :: rest).map NoteCandidate.velocity).sum := by
    have h := foldl_velocity_eq (c₁ :: c₂ :: rest) 0
    rw [zero_add] at h
    exact h
  constructor
  · intro hzero
    have htw : totalWeight (c₁ :: c₂ :: rest) = 0 := by
      rw [hsum]
      apply List.sum_eq_zero
      intro x hx
      rcases List.mem_map.mp hx with ⟨m, hm, rfl⟩
      exact hzero m hm
    simp [resolvePitch, htw]
  · intro hnn ⟨x, hx, hxpos⟩
    have htw : 0 < totalWeight (c₁ :: c₂ :: rest) := by
      rw [hsum]
      calc (0:ℚ) < x.velocity := hxpos
        _ ≤ _ := List.single_le_sum
          (by intro y hy; rcases List.mem_map.mp hy with ⟨m, hm, rfl⟩; exact hnn m hm)
          _ (List.mem_map.mpr ⟨x, hx, rfl⟩)
    simp [resolvePitch, ne_of_gt htw]

/-- C2 witness: the amended theorem evaluated at concrete candidate
pairs — velocities `0, 0` give `NaN`/absence, velocities `1/2, 1` give
the rounded weighted mean. -/
theorem frequency_weighted_mean_witness :
    resolvePitch [⟨60, 0, 7⟩, ⟨64, 0, 7⟩] .FREQUENCY = none
    ∧ resolvePitch [⟨60, 1/2, 0⟩, ⟨64, 1, 0⟩] .FREQUENCY
        = some (jsRound (weightedSum [⟨60, 1/2, 0⟩, ⟨64, 1, 0⟩]
            / totalWeight [⟨60, 1/2, 0⟩, ⟨64, 1, 0⟩])) := by
  constructor
  · exact (frequency_weighted_mean ⟨60, 0, 7⟩ ⟨64, 0, 7⟩ []).1
      (by with_unfolding_all decide)
  · exact (frequency_weighted_mean ⟨60, 1/2, 0⟩ ⟨64, 1, 0⟩ []).2
      (by with_unfolding_all decide) (by with_unfolding_all decide)

/-- C6 (confirmed): decompressing the compression of any
`ExpectedPitchArray` — including one with empty `pitches` — restores the
pitch sequence, the start, and the step exactly. -/
theorem rle_roundtrip (e : ExpectedPitchArray) :
    (decompressPitchArray (compressPitchArray e)).pitches = e.pitches
    ∧ (decompressPitchArray (compressPitchArray e)).start = e.start
    ∧ (decompressPitchArray (compressPitchArray e)).step = e.step := by
  refine ⟨?_, rfl, rfl⟩
  obtain ⟨s, st, ps⟩ := e
  cases ps with
  | nil => rfl
  | cons p ps =>
    simpa [decompressPitchArray, compressPitchArray]
      using flatten_compressRuns ps p 1

/-- C6 witness: the round trip evaluated on a concrete timeline with
runs of present and absent values. -/
theorem rle_roundtrip_witness :
    (decompressPitchArray (compressPitchArray
      ⟨0, 1/50, [some 60, some 60, none, none, some 64]⟩)).pitches
      = [some 60, some 60, none, none, some 64] :=
  (rle_roundtrip ⟨0, 1/50, [some 60, some 60, none, none, some 64]⟩).1

/-- C9 counterexample: importing the same well-formed data (a frame
list, no config field) into trackers that differ only in configuration
leaves them with different configurations — the old configuration is
retained, so import does not replace the configuration wholesale, and no
`MalformedScoreData` condition is signalled anywhere. -/
theorem import_does_not_replace_config :
    (scoreImport ⟨[], none⟩ ⟨[], ⟨3/10, 1, 17/20⟩⟩).config
      ≠ (scoreImport ⟨[], none⟩ ⟨[], defaultScoringConfig⟩).config
    ∧ (scoreImport ⟨[], none⟩ ⟨[], ⟨3/10, 1, 17/20⟩⟩).config
      = ⟨3/10, 1, 17/20⟩ := by
  constructor
  · with_unfolding_all decide
  · rfl

/-- C9 amended: `ScoreTracker.import` performs no validation and signals
no condition; it unconditionally replaces the frame history with
`data.frames`, and replaces the configuration (the supplied partial
configuration merged over the defaults) only when `data.config` is
present, retaining the previous configuration otherwise. -/
theorem import_replaces_frames_merges_config (data : ImportData)
    (s : TrackerState) :
    (scoreImport data s).frames = data.frames
    ∧ (data.config = none → (scoreImport data s).config = s.config)
    ∧ (∀ c, data.config = some c →
        (scoreImport data s).config = mergeConfig c) := by
  refine ⟨rfl, ?_, ?_⟩
  · intro h; simp [scoreImport, h]
  · intro c h; simp [scoreImport, h]

/-- C9 witness: the amended theorem evaluated at concrete import data
with and without a config field. -/
theorem import_replaces_frames_merges_config_witness :
    (scoreImport ⟨[], none⟩ ⟨[], defaultScoringConfig⟩).config
      = defaultScoringConfig
    ∧ (scoreImport ⟨[], some ⟨some (3/10), none, none⟩⟩
        ⟨[], defaultScoringConfig⟩).config
      = mergeConfig ⟨some (3/10), none, none⟩ := by
  constructor
  · exact (import_replaces_frames_merges_config ⟨[], none⟩
      ⟨[], defaultScoringConfig⟩).2.1 rfl
  · exact (import_replaces_frames_merges_config
      ⟨[], some ⟨some (3/10), none, none⟩⟩ ⟨[], defaultScoringConfig⟩).2.2
      ⟨some (3/10), none, none⟩ rfl

/-- C10 (confirmed): the `time` of the frame produced and appended by
`addFrame` is `detected.timestamp` when a detection is supplied and `0`
when it is absent; it equals the `currentTime` argument only when that
argument happens to coincide with the timestamp. -/
theorem frame_time_from_timestamp :
    (∀ (s : TrackerState) (d : DetectedPitch) (expected : ExpectedPitchArray)
        (t : ℚ), ((addFrame s (some d) expected t).2).time = d.timestamp)
    ∧ (∀ (s : TrackerState) (expected : ExpectedPitchArray) (t : ℚ),
        ((addFrame s none expected t).2).time = 0)
    ∧ (∀ (s : TrackerState) (d : DetectedPitch) (expected : ExpectedPitchArray)
        (t : ℚ), ((addFrame s (some d) expected t).2).time = t →
          t = d.timestamp) := by
  refine ⟨?_, ?_, ?_⟩
  · intro s d expected t
    exact evaluateFrame_time (some d) (getExpectedMidiAt t expected) s.config
  · intro s expected t
    exact evaluateFrame_time none (getExpectedMidiAt t expected) s.config
  · intro s d expected t h
    have h2 : (evaluateFrame (some d) (getExpectedMidiAt t expected)
        s.config).time = t := h
    have h3 : (evaluateFrame (some d) (getExpectedMidiAt t expected)
        s.config).time = d.timestamp :=
      evaluateFrame_time (some d) (getExpectedMidiAt t expected) s.config
    exact h2.symm.trans h3

/-- C4 (confirmed): the frame produced by `addFrame` is classified by
the specified decision tree — `NO_DATA` whenever the expected pitch is
absent, the detection is absent, its pitch is absent, or its clarity is
below the clarity floor; otherwise `PERFECT`/`ACCEPTABLE`/`MISS` by
comparing `|detected.pitch − expectedPitch|` against the thresholds.  In
particular, detected pitch `60.3` with clarity `0.9` against expected
`60` under the default configuration is `PERFECT`, and the same pitch
with clarity `0.5` is `NO_DATA`. -/
theorem frame_classification :
    (∀ (s : TrackerState) (detected : Option DetectedPitch)
        (expected : ExpectedPitchArray) (t : ℚ),
      ((addFrame s detected expected t).2).matchKind
        = classifySpec detected (getExpectedMidiAt t expected) s.config)
    ∧ (evaluateFrame (some ⟨some (603/10), 440, 9/10, 5⟩) (some 60)
        defaultScoringConfig).matchKind = .PERFECT
    ∧ (evaluateFrame (some ⟨some (603/10), 440, 1/2, 5⟩) (some 60)
        defaultScoringConfig).matchKind = .NO_DATA := by
  refine ⟨?_, by with_unfolding_all decide, by with_unfolding_all decide⟩
  intro s detected expected t
  exact evaluateFrame_matchKind detected (getExpectedMidiAt t expected) s.config

/-- The frame list after a sequence of `addFrame` calls is the original
history followed by the evaluation of each input, and the configuration
is untouched. -/
lemma addFrames_spec
    (inputs : List (Option DetectedPitch × ExpectedPitchArray × ℚ)) :
    ∀ (s : TrackerState),
      (addFrames s inputs).frames
        = s.frames ++ inputs.map (fun inp =>
            evaluateFrame inp.1 (getExpectedMidiAt inp.2.2 inp.2.1) s.config)
      ∧ (addFrames s inputs).config = s.config := by
  induction inputs with
  | nil => intro s; simp [addFrames]
  | cons inp rest ih =>
    intro s
    have hstep : (addFrame s inp.1 inp.2.1 inp.2.2).1
        = (⟨s.frames ++ [evaluateFrame inp.1 (getExpectedMidiAt inp.2.2 inp.2.1)
            s.config], s.config⟩ : TrackerState) := rfl
    have h := ih ⟨s.frames ++ [evaluateFrame inp.1
      (getExpectedMidiAt inp.2.2 inp.2.1) s.config], s.config⟩
    constructor
    · show (addFrames (addFrame s inp.1 inp.2.1 inp.2.2).1 rest).frames = _
      rw [hstep, h.1]
      simp
    · show (addFrames (addFrame s inp.1 inp.2.1 inp.2.2).1 rest).config = _
      rw [hstep, h.2]

/-- C8 (confirmed): `resetFrom t` keeps, in order, exactly the retained
frames whose `time` is strictly below the cutoff (the result is a
sublist of the history and every surviving frame satisfies `time < t`);
for a history split into a pre-seek part `A` (all times < t) and a
post-seek part `B` (all times ≥ t), the reset leaves exactly `A`, and
re-adding the identical inputs that produced `B` restores the original
history exactly. -/
theorem seek_reset (s : TrackerState) (t : ℚ) (A B : List ScoreFrame)
    (inputs : List (Option DetectedPitch × ExpectedPitchArray × ℚ))
    (hsplit : s.frames = A ++ B)
    (hA : ∀ f ∈ A, f.time < t)
    (hB : ∀ f ∈ B, t ≤ f.time)
    (hre : B = inputs.map (fun inp =>
      evaluateFrame inp.1 (getExpectedMidiAt inp.2.2 inp.2.1) s.config)) :
    (resetFrom t s).frames.Sublist s.frames
    ∧ (∀ f ∈ (resetFrom t s).frames, f.time < t)
    ∧ (resetFrom t s).frames = A
    ∧ (addFrames (resetFrom t s) inputs).frames = s.frames := by
  have hAfilter : A.filter (fun f => decide (f.time < t)) = A := by
    rw [List.filter_eq_self]
    intro a ha
    simpa using hA a ha
  have hBfilter : B.filter (fun f => decide (f.time < t)) = [] := by
    rw [List.filter_eq_nil_iff]
    intro a ha
    simpa using not_lt.mpr (hB a ha)
  have hreset : (resetFrom t s).frames = A := by
    show s.frames.filter (fun f => decide (f.time < t)) = A
    rw [hsplit, List.filter_append, hAfilter, hBfilter, List.append_nil]
  refine ⟨?_, ?_, hreset, ?_⟩
  · exact List.filter_sublist s.frames
  · intro f hf
    have hf' : f ∈ s.frames.filter (fun f => decide (f.time < t)) := hf
    simpa using (List.mem_filter.mp hf').2
  · have h := (addFrames_spec inputs (resetFrom t s)).1
    have hcfg : (resetFrom t s).config = s.config := rfl
    rw [hreset] at h
    rw [h, hcfg, ← hre, ← hsplit]

/-- C8 witness: the theorem evaluated on a concrete two-frame history
split at cutoff `3`, with the input that regenerates the dropped
frame. -/
theorem seek_reset_witness :
    (resetFrom 3 (⟨[⟨0, none, none, none, .NO_DATA⟩,
        ⟨5, none, none, none, .NO_DATA⟩], defaultScoringConfig⟩ :
        TrackerState)).frames
      = [⟨0, none, none, none, .NO_DATA⟩]
    ∧ (addFrames
        (resetFrom 3 ⟨[⟨0, none, none, none, .NO_DATA⟩,
          ⟨5, none, none, none, .NO_DATA⟩], defaultScoringConfig⟩)
        [(some ⟨none, 440, 1, 5⟩, ⟨0, 1, []⟩, 0)]).frames
      = [⟨0, none, none, none, .NO_DATA⟩, ⟨5, none, none, none, .NO_DATA⟩] := by
  have h := seek_reset
    ⟨[⟨0, none, none, none, .NO_DATA⟩, ⟨5, none, none, none, .NO_DATA⟩],
      defaultScoringConfig⟩ 3
    [⟨0, none, none, none, .NO_DATA⟩] [⟨5, none, none, none, .NO_DATA⟩]
    [(some ⟨none, 440, 1, 5⟩, ⟨0, 1, []⟩, 0)]
    rfl (by with_unfolding_all decide) (by with_unfolding_all decide)
    (by with_unfolding_all decide)
  exact ⟨h.2.2.1, h.2.2.2⟩

/-- Rounding to two decimals maps `[0, 100]` into itself. -/
lemma round2_bounds (x : ℚ) (h0 : 0 ≤ x) (h1 : x ≤ 100) :
    0 ≤ round2 x ∧ round2 x ≤ 100 := by
  unfold round2 jsRound
  constructor
  · apply div_nonneg _ (by norm_num)
    have h : (0:ℤ) ≤ ⌊x * 100 + 1/2⌋ := Int.floor_nonneg.mpr (by linarith)
    exact_mod_cast h
  · rw [div_le_iff₀ (by norm_num : (0:ℚ) < 100)]
    have h2 : ⌊x * 100 + 1/2⌋ ≤ ⌊(100:ℚ) * 100 + 1/2⌋ :=
      Int.floor_le_floor (by linarith)
    have h3 : ⌊(100:ℚ) * 100 + 1/2⌋ = 10000 := by with_unfolding_all decide
    have h4 : (⌊x * 100 + 1/2⌋ : ℚ) ≤ 10000 := by exact_mod_cast h2.trans_eq h3
    linarith

/-- `round2` fixes `0`. -/
lemma round2_zero : round2 0 = 0 := by with_unfolding_all decide

/-- `round2` fixes `100`. -/
lemma round2_hundred : round2 100 = 100 := by with_unfolding_all decide

/-- C5 (confirmed): `getStats` returns a score equal to
`100 * matched / scored` rounded to two decimals when at least one
scored (non-`NO_DATA`) frame exists and `0` otherwise; the score always
lies in `[0, 100]`, is `0` whenever every frame is `MISS` or `NO_DATA`,
and is `100` whenever scored frames exist and none of them is `MISS`. -/
theorem score_stats_bounds (s : TrackerState) :
    (0 ≤ (getStats s).score ∧ (getStats s).score ≤ 100)
    ∧ (scoredCount s.frames = 0 → (getStats s).score = 0)
    ∧ (0 < scoredCount s.frames →
        (getStats s).score
          = round2 (100 * (matchedCount s.frames : ℚ)
              / (scoredCount s.frames : ℚ)))
    ∧ ((∀ f ∈ s.frames,
          f.matchKind = MatchKind.MISS ∨ f.matchKind = MatchKind.NO_DATA) →
        (getStats s).score = 0)
    ∧ (0 < scoredCount s.frames →
        (∀ f ∈ s.frames, f.matchKind ≠ MatchKind.MISS) →
        (getStats s).score = 100) := by
  have hscore : (getStats s).score
      = round2 (if 0 < scoredCount s.frames
          then (matchedCount s.frames : ℚ) / (scoredCount s.frames : ℚ) * 100
          else 0) := rfl
  have hms : matchedCount s.frames ≤ scoredCount s.frames := Nat.le_add_right _ _
  refine ⟨?_, ?_, ?_, ?_, ?_⟩
  · by_cases h : 0 < scoredCount s.frames
    · rw [hscore, if_pos h]
      have hs0 : (0:ℚ) < (scoredCount s.frames : ℚ) := by exact_mod_cast h
      have hq : (matchedCount s.frames : ℚ) / (scoredCount s.frames : ℚ) ≤ 1 := by
        rw [div_le_one hs0]
        exact_mod_cast hms
      exact round2_bounds _ (by positivity) (by linarith)
    · rw [hscore, if_neg h, round2_zero]
      norm_num
  · intro h
    rw [hscore, if_neg (by omega), round2_zero]
  · intro h
    rw [hscore, if_pos h]
    congr 1
    ring
  · intro hall
    have hP : countKind .PERFECT s.frames = 0 := by
      unfold countKind
      rw [List.countP_eq_zero]
      intro f hf
      simp only [decide_eq_true_eq]
      intro hPf
      rcases hall f hf with h | h <;> simp [hPf] at h
    have hAcc : countKind .ACCEPTABLE s.frames = 0 := by
      unfold countKind
      rw [List.countP_eq_zero]
      intro f hf
      simp only [decide_eq_true_eq]
      intro hAf
      rcases hall f hf with h | h <;> simp [hAf] at h
    have hm : matchedCount s.frames = 0 := by
      show countKind .PERFECT s.frames + countKind .ACCEPTABLE s.frames = 0
      omega
    by_cases h : 0 < scoredCount s.frames
    · rw [hscore, if_pos h, hm]
      norm_num [round2_zero]
    · rw [hscore, if_neg h, round2_zero]
  · intro hpos hnomiss
    have hM : countKind .MISS s.frames = 0 := by
      unfold countKind
      rw [List.countP_eq_zero]
      intro f hf
      simp only [decide_eq_true_eq]
      exact hnomiss f hf
    have e1 : scoredCount s.frames
        = matchedCount s.frames + countKind .MISS s.frames := rfl
    have hsm : scoredCount s.frames = matchedCount s.frames := by omega
    have hm0 : matchedCount s.frames ≠ 0 := by omega
    rw [hscore, if_pos hpos, hsm, div_self (by exact_mod_cast hm0), one_mul]
    exact round2_hundred

/-- C5 witness: a one-frame `PERFECT` history scores exactly `100`. -/
theorem score_stats_bounds_witness :
    (getStats ⟨[⟨0, some 60, some 60, some 0, .PERFECT⟩],
      defaultScoringConfig⟩).score = 100 :=
  (score_stats_bounds ⟨[⟨0, some 60, some 60, some 0, .PERFECT⟩],
      defaultScoringConfig⟩).2.2.2.2
    (by with_unfolding_all decide) (by with_unfolding_all decide)

/-- C7 counterexample: on the timeline with `start = 0`, `step = 1` and
the single silent slot `[null]`, the lookup at time `0` returns absent
even though the time is not before `start` and the computed index `0`
lies inside `[0, length)` — so "absent exactly when the time is before
`start` or the index is out of range" fails: an in-range slot can itself
hold absence. -/
theorem lookup_present_index_absent_value :
    getExpectedMidiAt 0 ⟨0, 1, [none]⟩ = none
    ∧ ¬((0:ℚ) < (0:ℚ))
    ∧ (0:ℤ) ≤ ⌊((0:ℚ) - 0) / 1⌋
    ∧ ⌊((0:ℚ) - 0) / 1⌋ < (([none] : List (Option ℤ)).length : ℤ) := by
  with_unfolding_all decide

/-- C7 amended: for a timeline with positive step and non-empty
`pitches`, the lookup before `start` is absent; at `start` it is
`pitches[0]`; at or beyond `start + length * step` it is absent; and
whenever the time is not before `start` and the floor-computed index is
in range, the lookup returns `pitches[index]` — which may itself be
absent (a silent slot). -/
theorem lookup_boundary (e : ExpectedPitchArray) (hstep : 0 < e.step)
    (hne : e.pitches ≠ []) :
    (∀ t : ℚ, t < e.start → getExpectedMidiAt t e = none)
    ∧ getExpectedMidiAt e.start e = e.pitches.getD 0 none
    ∧ (∀ t : ℚ, e.start + (e.pitches.length : ℚ) * e.step ≤ t →
        getExpectedMidiAt t e = none)
    ∧ (∀ t : ℚ, e.start ≤ t →
        ⌊(t - e.start) / e.step⌋ < (e.pitches.length : ℤ) →
        getExpectedMidiAt t e
          = e.pitches.getD (⌊(t - e.start) / e.step⌋).toNat none) := by
  have hlen : 0 < (e.pitches.length : ℤ) := by
    exact_mod_cast List.length_pos.mpr hne
  refine ⟨?_, ?_, ?_, ?_⟩
  · intro t ht
    simp only [getExpectedMidiAt]
    rw [if_pos ht]
  · simp only [getExpectedMidiAt]
    rw [if_neg (lt_irrefl e.start)]
    have h0 : ⌊(e.start - e.start) / e.step⌋ = 0 := by
      rw [sub_self, zero_div, Int.floor_zero]
    rw [h0, if_neg (by omega)]
    rfl
  · intro t ht
    have hnn : (0:ℚ) ≤ (e.pitches.length : ℚ) * e.step :=
      mul_nonneg (by positivity) hstep.le
    have hstart_le : e.start ≤ t := by linarith
    simp only [getExpectedMidiAt]
    rw [if_neg (not_lt.mpr hstart_le)]
    have hidx : (e.pitches.length : ℤ) ≤ ⌊(t - e.start) / e.step⌋ := by
      apply Int.le_floor.mpr
      rw [le_div_iff₀ hstep]
      push_cast
      linarith
    rw [if_pos (Or.inr hidx)]
  · intro t ht hidx
    have h0 : (0:ℤ) ≤ ⌊(t - e.start) / e.step⌋ :=
      Int.floor_nonneg.mpr (div_nonneg (by linarith) hstep.le)
    simp only [getExpectedMidiAt]
    rw [if_neg (not_lt.mpr ht), if_neg (by omega)]

/-- C7 witness: the amended theorem evaluated on the concrete timeline
`start = 0`, `step = 1`, `pitches = [60, null]`: the lookup at `start`
yields `pitches[0] = 60`. -/
theorem lookup_boundary_witness :
    getExpectedMidiAt 0 ⟨0, 1, [some 60, none]⟩ = some 60 := by
  have h := (lookup_boundary ⟨0, 1, [some 60, none]⟩ (by norm_num)
    (by simp)).2.1
  exact h

/-- The time-minimum fold is bounded by its accumulator and by every
element. -/
lemma foldl_min_le (ns : List NoteEvent) : ∀ (a : ℚ),
    ns.foldl (fun b m => min b m.time) a ≤ a
    ∧ ∀ m ∈ ns, ns.foldl (fun b m => min b m.time) a ≤ m.time := by
  induction ns with
  | nil => intro a; exact ⟨le_refl a, by simp⟩
  | cons x xs ih =>
    intro a
    simp only [List.foldl_cons]
    have h := ih (min a x.time)
    refine ⟨h.1.trans (min_le_left _ _), ?_⟩
    intro m hm
    rcases List.mem_cons.mp hm with rfl | hm'
    · exact h.1.trans (min_le_right _ _)
    · exact h.2 m hm'

/-- `minTime` is a lower bound of all note start times. -/
lemma minTime_le (n : NoteEvent) (ns : List NoteEvent) :
    ∀ m ∈ n :: ns, minTime n ns ≤ m.time := by
  intro m hm
  rcases List.mem_cons.mp hm with rfl | hm'
  · exact (foldl_min_le ns m.time).1
  · exact (foldl_min_le ns n.time).2 m hm'

/-- The end-maximum fold dominates its accumulator and every element. -/
lemma le_foldl_max (ns : List NoteEvent) : ∀ (a : ℚ),
    a ≤ ns.foldl (fun b m => max b (m.time + m.duration)) a
    ∧ ∀ m ∈ ns,
        m.time + m.duration ≤ ns.foldl (fun b m => max b (m.time + m.duration)) a := by
  induction ns with
  | nil => intro a; exact ⟨le_refl a, by simp⟩
  | cons x xs ih =>
    intro a
    simp only [List.foldl_cons]
    have h := ih (max a (x.time + x.duration))
    refine ⟨(le_max_left _ _).trans h.1, ?_⟩
    intro m hm
    rcases List.mem_cons.mp hm with rfl | hm'
    · exact (le_max_right _ _).trans h.1
    · exact h.2 m hm'

/-- `maxEnd` is an upper bound of all note end times. -/
lemma le_maxEnd (n : NoteEvent) (ns : List NoteEvent) :
    ∀ m ∈ n :: ns, m.time + m.duration ≤ maxEnd n ns := by
  intro m hm
  rcases List.mem_cons.mp hm with rfl | hm'
  · exact (le_foldl_max ns (m.time + m.duration)).1
  · exact (le_foldl_max ns (n.time + n.duration)).2 m hm'

/-- Indexing the slot table built over `List.range` evaluates the slot
function. -/
lemma getD_range_map : ∀ (len : ℕ) (f : ℕ → Option ℤ) (k : ℕ), k < len →
    ((List.range len).map f).getD k none = f k := by
  intro len
  induction len with
  | zero => intro f k hk; exact absurd hk (Nat.not_lt_zero k)
  | succ n ih =>
    intro f k hk
    rw [List.range_succ_eq_map, List.map_cons, List.map_map]
    cases k with
    | zero => rfl
    | succ k =>
      rw [List.getD_cons_succ]
      exact ih (f ∘ Nat.succ) k (by omega)

/-- Under pairwise slot-disjointness, the only note whose slot range
contains `i` is the covering note, so the filter keeps exactly it. -/
lemma filter_slot_single (start res : ℚ) (len : ℕ) (i : ℤ) (note : NoteEvent)
    (hin : inSlotRange start res len note i) :
    ∀ (notes : List NoteEvent),
      List.Pairwise (slotDisjoint start res len) notes → note ∈ notes →
      notes.filter (fun m => decide (inSlotRange start res len m i))
        = [note] := by
  intro notes
  induction notes with
  | nil => intro _ hmem; cases hmem
  | cons x xs ih =>
    intro hd hmem
    rcases List.pairwise_cons.mp hd with ⟨hx, hxs⟩
    rcases List.mem_cons.mp hmem with rfl | hmem'
    · rw [List.filter_cons_of_pos (by simpa using hin)]
      have hrest : xs.filter (fun m => decide (inSlotRange start res len m i))
          = [] := by
        rw [List.filter_eq_nil_iff]
        intro m hm
        simp only [decide_eq_true_eq]
        intro hmi
        exact hx m hm i ⟨hin, hmi⟩
      rw [hrest]
    · have hnx : ¬ inSlotRange start res len x i := fun hxi =>
        hx note hmem' i ⟨hxi, hin⟩
      rw [List.filter_cons_of_neg (by simpa using hnx)]
      exact ih hxs hmem'

/-- C3 counterexample: the notes `(time 0, duration 0.3, pitch 60)` and
`(time 0.3, duration 0.7, pitch 64)` have disjoint time intervals, yet at
resolution `0.5` both are candidates of slot `0`; at `t = 0.1`, inside
the first note's duration only, the `VELOCITY` timeline yields `64` —
not the covering note's pitch `60` — and the `FIRST` timeline yields
`60`, so the result also depends on the strategy. -/
theorem quantization_shared_slot_counterexample :
    ((0:ℚ) ≤ 1/10 ∧ (1/10:ℚ) < 0 + 3/10)
    ∧ ((0:ℚ) + 3/10 ≤ 3/10)
    ∧ getExpectedMidiAt (1/10)
        (buildExpectedPitchArray
          [⟨0, 3/10, 60, 1/2⟩, ⟨3/10, 7/10, 64, 9/10⟩] (1/2) .VELOCITY)
        = some 64
    ∧ getExpectedMidiAt (1/10)
        (buildExpectedPitchArray
          [⟨0, 3/10, 60, 1/2⟩, ⟨3/10, 7/10, 64, 9/10⟩] (1/2) .FIRST)
        = some 60
    ∧ (64 : ℤ) ≠ 60 := by
  with_unfolding_all decide

/-- C3 amended: quantization is correct under disjointness of the
notes' *slot ranges* (interval disjointness is not enough, since two
interval-disjoint notes can still share the slot containing their
boundary): if the slot ranges are pairwise disjoint, then at every time
within a note's duration the timeline lookup returns exactly that note's
pitch, for every polyphony strategy. -/
theorem quantization_correct (n : NoteEvent) (ns : List NoteEvent) (res : ℚ)
    (strategy : PolyphonyStrategy) (hres : 0 < res)
    (hdisj : List.Pairwise
      (slotDisjoint (minTime n ns) res (arrLen n ns res)) (n :: ns))
    (note : NoteEvent) (hmem : note ∈ n :: ns) (t : ℚ)
    (ht1 : note.time ≤ t) (ht2 : t < note.time + note.duration) :
    getExpectedMidiAt t (buildExpectedPitchArray (n :: ns) res strategy)
      = some note.midi := by
  have hs_le : minTime n ns ≤ note.time := minTime_le n ns note hmem
  have hst : minTime n ns ≤ t := hs_le.trans ht1
  have hE : note.time + note.duration ≤ maxEnd n ns := le_maxEnd n ns note hmem
  have hidx0 : (0:ℤ) ≤ ⌊(t - minTime n ns) / res⌋ :=
    Int.floor_nonneg.mpr (div_nonneg (by linarith) hres.le)
  have hlt : ⌊(t - minTime n ns) / res⌋
      < ⌈(note.time + note.duration - minTime n ns) / res⌉ := by
    have h1 : ((⌊(t - minTime n ns) / res⌋ : ℤ) : ℚ)
        ≤ (t - minTime n ns) / res := Int.floor_le _
    have h2 : (t - minTime n ns) / res
        < (note.time + note.duration - minTime n ns) / res :=
      (div_lt_div_iff_of_pos_right hres).mpr (by linarith)
    exact Int.lt_ceil.mpr (lt_of_le_of_lt h1 h2)
  have hceil_le : ⌈(note.time + note.duration - minTime n ns) / res⌉
      ≤ (arrLen n ns res : ℤ) := by
    have h3 : (note.time + note.duration - minTime n ns) / res
        ≤ (maxEnd n ns - minTime n ns) / res :=
      (div_le_div_iff_of_pos_right hres).mpr (by linarith)
    have h4 : ⌈(note.time + note.duration - minTime n ns) / res⌉
        ≤ ⌈(maxEnd n ns - minTime n ns) / res⌉ := Int.ceil_le_ceil h3
    exact h4.trans (Int.self_le_toNat _)
  have hidx_lt_len : ⌊(t - minTime n ns) / res⌋ < (arrLen n ns res : ℤ) :=
    lt_of_lt_of_le hlt hceil_le
  have hin : inSlotRange (minTime n ns) res (arrLen n ns res) note
      ⌊(t - minTime n ns) / res⌋ := by
    constructor
    · unfold slotLo
      apply max_le hidx0
      apply Int.floor_le_floor
      exact (div_le_div_iff_of_pos_right hres).mpr (by linarith)
    · unfold slotHi
      exact lt_min hidx_lt_len hlt
  have hbuild : buildExpectedPitchArray (n :: ns) res strategy
      = ⟨minTime n ns, res,
          (List.range (arrLen n ns res)).map
            (fun i : ℕ => slotValue (n :: ns) (minTime n ns) res
              (arrLen n ns res) strategy (Int.ofNat i))⟩ := rfl
  rw [hbuild]
  simp only [getExpectedMidiAt, List.length_map, List.length_range]
  rw [if_neg (not_lt.mpr hst), if_neg (by omega)]
  rw [getD_range_map (arrLen n ns res) _ _ (by omega)]
  have hcast : Int.ofNat (⌊(t - minTime n ns) / res⌋).toNat
      = ⌊(t - minTime n ns) / res⌋ := Int.toNat_of_nonneg hidx0
  rw [hcast]
  unfold slotValue
  rw [candidatesAt, filter_slot_single (minTime n ns) res (arrLen n ns res)
    ⌊(t - minTime n ns) / res⌋ note hin (n :: ns) hdisj hmem]
  rfl

/-- C3 witness: the amended theorem evaluated on a single note
`(time 0, duration 1, pitch 60)` at resolution `1/2` and `t = 1/4`. -/
theorem quantization_correct_witness :
    getExpectedMidiAt (1/4)
      (buildExpectedPitchArray [⟨0, 1, 60, 1/2⟩] (1/2) .VELOCITY)
      = some 60 :=
  quantization_correct ⟨0, 1, 60, 1/2⟩ [] (1/2) .VELOCITY (by norm_num)
    (List.pairwise_singleton _ _) ⟨0, 1, 60, 1/2⟩
    (List.mem_singleton.mpr rfl) (1/4)
    (show (0:ℚ) ≤ 1/4 by norm_num) (show (1/4:ℚ) < 0 + 1 by norm_num)

end Karaoke
